import Mathlib

/-!
Verification development for the psqlpy repository fragment: the two visible
shim modules (`psqlpy/exceptions.py`, `psqlpy/extra_types.py`) are embedded
directly; the engine behind them (codec layer, connection, transaction,
cursor, pool) is not present in the repository fragment, so those components
are modelled from the design specification and the claims are settled
against the models.
-/

namespace Psqlpy

/-! ## Embedding of `psqlpy/exceptions.py` -/

/-- The names imported from `_internal.exceptions`, in source order
(`psqlpy/exceptions.py`, lines 1-24). -/
def exceptionsImports : List String :=
  [ "BaseConnectionError"
  , "BaseConnectionPoolError"
  , "BaseCursorError"
  , "BaseTransactionError"
  , "ConnectionExecuteError"
  , "ConnectionPoolBuildError"
  , "ConnectionPoolConfigurationError"
  , "ConnectionPoolExecuteError"
  , "CursorCloseError"
  , "CursorFetchError"
  , "CursorStartError"
  , "DBPoolConfigurationError"
  , "MacAddr6ConversionError"
  , "PyToRustValueMappingError"
  , "RustPSQLDriverPyBaseError"
  , "RustToPyValueMappingError"
  , "TransactionBeginError"
  , "TransactionCommitError"
  , "TransactionExecuteError"
  , "TransactionRollbackError"
  , "TransactionSavepointError"
  , "UUIDValueConvertError" ]

/-- The `__all__` list of `psqlpy.exceptions`, in source order
(`psqlpy/exceptions.py`, lines 26-49). -/
def exceptionsAll : List String :=
  [ "BaseConnectionPoolError"
  , "ConnectionPoolBuildError"
  , "ConnectionPoolConfigurationError"
  , "ConnectionPoolExecuteError"
  , "BaseConnectionError"
  , "ConnectionExecuteError"
  , "BaseTransactionError"
  , "TransactionBeginError"
  , "TransactionCommitError"
  , "TransactionRollbackError"
  , "TransactionSavepointError"
  , "TransactionExecuteError"
  , "BaseCursorError"
  , "CursorStartError"
  , "CursorCloseError"
  , "CursorFetchError"
  , "RustPSQLDriverPyBaseError"
  , "RustToPyValueMappingError"
  , "PyToRustValueMappingError"
  , "DBPoolConfigurationError"
  , "UUIDValueConvertError"
  , "MacAddr6ConversionError" ]

/-! ## Embedding of `psqlpy/extra_types.py` -/

/-- The names imported from `_internal.extra_types`, in source order
(`psqlpy/extra_types.py`, lines 1-14). -/
def extraTypesImports : List String :=
  [ "BigInt"
  , "Float32"
  , "Float64"
  , "Integer"
  , "PyCustomType"
  , "PyJSON"
  , "PyJSONB"
  , "PyMacAddr6"
  , "PyMacAddr8"
  , "PyText"
  , "PyVarChar"
  , "SmallInt" ]

/-- The `__all__` list of `psqlpy.extra_types`, in source order
(`psqlpy/extra_types.py`, lines 16-29). -/
def extraTypesAll : List String :=
  [ "SmallInt"
  , "Integer"
  , "BigInt"
  , "PyJSONB"
  , "PyJSON"
  , "PyMacAddr6"
  , "PyMacAddr8"
  , "PyVarChar"
  , "PyText"
  , "PyCustomType"
  , "Float32"
  , "Float64" ]

/-- The exception names the external-interface contract requires: the five
subsystem base classes and the specific subtypes enumerated in section 4 of
the specification. -/
def contractExceptionNames : List String :=
  [ "BaseConnectionPoolError"
  , "BaseConnectionError"
  , "BaseTransactionError"
  , "BaseCursorError"
  , "RustPSQLDriverPyBaseError"
  , "PyToRustValueMappingError"
  , "ConnectionExecuteError"
  , "TransactionBeginError"
  , "TransactionSavepointError"
  , "TransactionCommitError"
  , "TransactionRollbackError"
  , "CursorStartError"
  , "CursorCloseError"
  , "CursorFetchError"
  , "ConnectionPoolConfigurationError"
  , "DBPoolConfigurationError"
  , "ConnectionPoolExecuteError"
  , "ConnectionPoolBuildError" ]

/-- The typed value markers named in section 6 of the specification. -/
def contractMarkerNames : List String :=
  [ "SmallInt", "Integer", "BigInt", "Float32", "Float64"
  , "PyJSON", "PyJSONB", "PyMacAddr6", "PyMacAddr8"
  , "PyVarChar", "PyText", "PyCustomType" ]

/-! ## Codec layer

Modelled from the spec: the codec layer itself lives in the external
`_internal` engine and is absent from the repository fragment; the model
below follows section 4.1 (pure `encode`/`decode` over the PostgreSQL wire
binary format, dedicated conversion errors carrying the offending OID and
observed byte lengths). A byte is a natural number below 256; machine
floats are carried as their IEEE bit patterns, which is exactly what the
wire encoding transports. -/

/-- Big-endian byte string of width `w` for a natural number. -/
def natToBytesBE : Nat → Nat → List Nat
  | 0, _ => []
  | w + 1, n => natToBytesBE w (n / 256) ++ [n % 256]

/-- Recombine a big-endian byte string into a natural number. -/
def bytesToNatBE (bs : List Nat) : Nat :=
  bs.foldl (fun acc b => acc * 256 + b) 0

/-- Modelled from the spec: encode a host integer of byte width `w` as
big-endian two's complement. -/
def encodeIntBE (w : Nat) (i : Int) : List Nat :=
  natToBytesBE w ((i % ((2 : Int) ^ (8 * w))).toNat)

/-- Modelled from the spec: decode a big-endian two's-complement byte string
of width `w` back into a host integer. -/
def decodeIntBE (w : Nat) (bs : List Nat) : Int :=
  let m := bytesToNatBE bs
  if m < 2 ^ (8 * w - 1) then (m : Int) else (m : Int) - (2 : Int) ^ (8 * w)

/-- PostgreSQL type OIDs used by the codec dispatch. -/
def boolOid : Nat := 16
def int2Oid : Nat := 21
def int4Oid : Nat := 23
def int8Oid : Nat := 20
def float4Oid : Nat := 700
def float8Oid : Nat := 701
def textOid : Nat := 25
def varcharOid : Nat := 1043
def uuidOid : Nat := 2950
def macaddr6Oid : Nat := 829
def macaddr8Oid : Nat := 774
def jsonOid : Nat := 114
def jsonbOid : Nat := 3802

/-- The OIDs the codec layer decodes natively; any other OID is handed to
the caller-supplied custom-type escape hatch. -/
def knownOids : List Nat :=
  [boolOid, int2Oid, int4Oid, int8Oid, float4Oid, float8Oid, textOid,
   varcharOid, uuidOid, macaddr6Oid, macaddr8Oid, jsonOid, jsonbOid]

/-- Modelled from the spec: the discriminated union of supported wire
values (section 3). Text-like payloads are carried as their encoded byte
strings; floats as IEEE bit patterns. -/
inductive Value where
  | boolV (b : Bool)
  | smallInt (i : Int)
  | integer (i : Int)
  | bigInt (i : Int)
  | float32 (bits : Nat)
  | float64 (bits : Nat)
  | varchar (bytes : List Nat)
  | text (bytes : List Nat)
  | uuid (bytes : List Nat)
  | macAddr6 (bytes : List Nat)
  | macAddr8 (bytes : List Nat)
  | json (bytes : List Nat)
  | jsonb (bytes : List Nat)
  | custom (oid : Nat) (bytes : List Nat)
deriving DecidableEq, Repr

/-- Modelled from the spec: conversion errors carry the offending OID and
the byte lengths involved (sections 4.1 and 7). -/
inductive ConvError where
  | pyToRustMapping (typeName : String) (oid : Nat)
  | rustToPyMapping (oid : Nat) (observedLen : Nat)
  | macAddr6Conversion (observedLen expectedLen : Nat)
  | macAddr8Conversion (observedLen expectedLen : Nat)
  | uuidConvert (observedLen : Nat)
  | jsonbFormat (observedLen : Nat)
deriving DecidableEq, Repr

/-- Well-formedness of a host value: fixed-width payloads have their fixed
widths, every byte is a byte, and a custom value does not shadow a natively
decoded OID. -/
def Value.wf : Value → Prop
  | .boolV _ => True
  | .smallInt i => -(2 : Int) ^ 15 ≤ i ∧ i < (2 : Int) ^ 15
  | .integer i => -(2 : Int) ^ 31 ≤ i ∧ i < (2 : Int) ^ 31
  | .bigInt i => -(2 : Int) ^ 63 ≤ i ∧ i < (2 : Int) ^ 63
  | .float32 bits => bits < 2 ^ 32
  | .float64 bits => bits < 2 ^ 64
  | .varchar bs => ∀ b ∈ bs, b < 256
  | .text bs => ∀ b ∈ bs, b < 256
  | .uuid bs => bs.length = 16 ∧ ∀ b ∈ bs, b < 256
  | .macAddr6 bs => bs.length = 6 ∧ ∀ b ∈ bs, b < 256
  | .macAddr8 bs => bs.length = 8 ∧ ∀ b ∈ bs, b < 256
  | .json bs => ∀ b ∈ bs, b < 256
  | .jsonb bs => ∀ b ∈ bs, b < 256
  | .custom oid bs => oid ∉ knownOids ∧ ∀ b ∈ bs, b < 256

/-- The OID a value re-encodes under, from the metadata paired with each
variant (section 3). -/
def Value.oid : Value → Nat
  | .boolV _ => boolOid
  | .smallInt _ => int2Oid
  | .integer _ => int4Oid
  | .bigInt _ => int8Oid
  | .float32 _ => float4Oid
  | .float64 _ => float8Oid
  | .varchar _ => varcharOid
  | .text _ => textOid
  | .uuid _ => uuidOid
  | .macAddr6 _ => macaddr6Oid
  | .macAddr8 _ => macaddr8Oid
  | .json _ => jsonOid
  | .jsonb _ => jsonbOid
  | .custom oid _ => oid

/-- Modelled from the spec: `encode(value) -> bytes`, pure and
deterministic (section 4.1). JSONB is framed with its version byte. -/
def encode : Value → List Nat
  | .boolV b => [if b then 1 else 0]
  | .smallInt i => encodeIntBE 2 i
  | .integer i => encodeIntBE 4 i
  | .bigInt i => encodeIntBE 8 i
  | .float32 bits => natToBytesBE 4 bits
  | .float64 bits => natToBytesBE 8 bits
  | .varchar bs => bs
  | .text bs => bs
  | .uuid bs => bs
  | .macAddr6 bs => bs
  | .macAddr8 bs => bs
  | .json bs => bs
  | .jsonb bs => 1 :: bs
  | .custom _ bs => bs

/-- Modelled from the spec: `decode(oid, bytes) -> Value`, pure; fails with
a dedicated conversion error naming the observed and expected byte lengths
when a fixed-width payload has the wrong length (sections 4.1 and 7). -/
def decode (oid : Nat) (bs : List Nat) : Except ConvError Value :=
  if oid = boolOid then
    match bs with
    | [0] => .ok (.boolV false)
    | [1] => .ok (.boolV true)
    | _ => .error (.rustToPyMapping oid bs.length)
  else if oid = int2Oid then
    if bs.length = 2 then .ok (.smallInt (decodeIntBE 2 bs))
    else .error (.rustToPyMapping oid bs.length)
  else if oid = int4Oid then
    if bs.length = 4 then .ok (.integer (decodeIntBE 4 bs))
    else .error (.rustToPyMapping oid bs.length)
  else if oid = int8Oid then
    if bs.length = 8 then .ok (.bigInt (decodeIntBE 8 bs))
    else .error (.rustToPyMapping oid bs.length)
  else if oid = float4Oid then
    if bs.length = 4 then .ok (.float32 (bytesToNatBE bs))
    else .error (.rustToPyMapping oid bs.length)
  else if oid = float8Oid then
    if bs.length = 8 then .ok (.float64 (bytesToNatBE bs))
    else .error (.rustToPyMapping oid bs.length)
  else if oid = textOid then .ok (.text bs)
  else if oid = varcharOid then .ok (.varchar bs)
  else if oid = uuidOid then
    if bs.length = 16 then .ok (.uuid bs)
    else .error (.uuidConvert bs.length)
  else if oid = macaddr6Oid then
    if bs.length = 6 then .ok (.macAddr6 bs)
    else .error (.macAddr6Conversion bs.length 6)
  else if oid = macaddr8Oid then
    if bs.length = 8 then .ok (.macAddr8 bs)
    else .error (.macAddr8Conversion bs.length 8)
  else if oid = jsonOid then .ok (.json bs)
  else if oid = jsonbOid then
    match bs with
    | 1 :: rest => .ok (.jsonb rest)
    | _ => .error (.jsonbFormat bs.length)
  else .ok (.custom oid bs)

theorem natToBytesBE_length (w n : Nat) : (natToBytesBE w n).length = w := by
  induction w generalizing n with
  | zero => rfl
  | succ w ih => simp [natToBytesBE, ih]

theorem natToBytesBE_lt (w n : Nat) : ∀ b ∈ natToBytesBE w n, b < 256 := by
  induction w generalizing n with
  | zero => simp [natToBytesBE]
  | succ w ih =>
    intro b hb
    simp only [natToBytesBE, List.mem_append, List.mem_singleton] at hb
    rcases hb with hb | hb
    · exact ih _ _ hb
    · subst hb; exact Nat.mod_lt _ (by norm_num)

theorem bytesToNatBE_append_one (l : List Nat) (b : Nat) :
    bytesToNatBE (l ++ [b]) = bytesToNatBE l * 256 + b := by
  simp [bytesToNatBE, List.foldl_append]

theorem bytesToNatBE_natToBytesBE (w n : Nat) (h : n < 256 ^ w) :
    bytesToNatBE (natToBytesBE w n) = n := by
  induction w generalizing n with
  | zero =>
    have : n = 0 := by simpa using h
    simp [this, natToBytesBE, bytesToNatBE]
  | succ w ih =>
    have hdiv : n / 256 < 256 ^ w := by
      apply Nat.div_lt_of_lt_mul
      calc n < 256 ^ (w + 1) := h
        _ = 256 * 256 ^ w := by rw [Nat.pow_succ]; ring
    have := Nat.div_add_mod n 256
    simp [natToBytesBE, bytesToNatBE_append_one, ih _ hdiv]
    omega

theorem encodeIntBE_length (w : Nat) (i : Int) :
    (encodeIntBE w i).length = w := by
  simp [encodeIntBE, natToBytesBE_length]

theorem decodeIntBE_encodeIntBE (w : Nat) (hw : 0 < w) (i : Int)
    (h1 : -(2 : Int) ^ (8 * w - 1) ≤ i) (h2 : i < (2 : Int) ^ (8 * w - 1)) :
    decodeIntBE w (encodeIntBE w i) = i := by
  have hk : 8 * w = (8 * w - 1) + 1 := by omega
  set A : Int := (2 : Int) ^ (8 * w - 1) with hA
  have hApos : 0 < A := by positivity
  have hM : (2 : Int) ^ (8 * w) = 2 * A := by
    rw [hk, pow_succ]; ring
  have hcast : ((2 ^ (8 * w - 1) : Nat) : Int) = A := by
    push_cast [hA]; rfl
  have hMpos : (0 : Int) < (2 : Int) ^ (8 * w) := by positivity
  have hmod_nonneg : 0 ≤ i % (2 : Int) ^ (8 * w) :=
    Int.emod_nonneg i (by positivity)
  have hmod_lt : i % (2 : Int) ^ (8 * w) < (2 : Int) ^ (8 * w) :=
    Int.emod_lt_of_pos i hMpos
  set m : Nat := (i % (2 : Int) ^ (8 * w)).toNat with hm
  have hmint : (m : Int) = i % (2 : Int) ^ (8 * w) :=
    Int.toNat_of_nonneg hmod_nonneg
  have hpow256 : ((256 ^ w : Nat) : Int) = (2 : Int) ^ (8 * w) := by
    push_cast
    rw [show (256 : Int) = 2 ^ 8 by norm_num, ← pow_mul]
  have hmlt : m < 256 ^ w := by
    have : (m : Int) < ((256 ^ w : Nat) : Int) := by rw [hmint, hpow256]; exact hmod_lt
    exact_mod_cast this
  have hround : bytesToNatBE (natToBytesBE w m) = m :=
    bytesToNatBE_natToBytesBE w m hmlt
  unfold decodeIntBE encodeIntBE
  rw [← hm, hround]
  by_cases hi : 0 ≤ i
  · have hilt : i < (2 : Int) ^ (8 * w) := by rw [hM]; omega
    have : i % (2 : Int) ^ (8 * w) = i := Int.emod_eq_of_lt hi hilt
    have hmi : (m : Int) = i := by rw [hmint, this]
    have hmlt2 : m < 2 ^ (8 * w - 1) := by
      have : (m : Int) < ((2 ^ (8 * w - 1) : Nat) : Int) := by rw [hmi, hcast]; exact h2
      exact_mod_cast this
    simp [hmlt2, hmi]
  · push_neg at hi
    have hshift : i % (2 : Int) ^ (8 * w) = i + (2 : Int) ^ (8 * w) := by
      have h1' : (i + (2 : Int) ^ (8 * w)) % (2 : Int) ^ (8 * w) = i % (2 : Int) ^ (8 * w) := by
        have := Int.add_mul_emod_self_left (a := i) (b := (2 : Int) ^ (8 * w)) (c := 1)
        rwa [mul_one] at this
      have h2' : (i + (2 : Int) ^ (8 * w)) % (2 : Int) ^ (8 * w) = i + (2 : Int) ^ (8 * w) := by
        apply Int.emod_eq_of_lt
        · rw [hM]; omega
        · omega
      rw [← h1', h2']
    have hmi : (m : Int) = i + (2 : Int) ^ (8 * w) := by rw [hmint, hshift]
    have hmge : ¬ m < 2 ^ (8 * w - 1) := by
      intro hlt
      have : (m : Int) < A := by rw [← hcast]; exact_mod_cast hlt
      rw [hmi, hM] at this
      omega
    simp only [hmge, if_false]
    rw [hmi]; ring

theorem decode_int2_of_len (bs : List Nat) (h : bs.length = 2) :
    decode int2Oid bs = .ok (.smallInt (decodeIntBE 2 bs)) := by
  simp [decode, int2Oid, boolOid, h]

theorem decode_int4_of_len (bs : List Nat) (h : bs.length = 4) :
    decode int4Oid bs = .ok (.integer (decodeIntBE 4 bs)) := by
  simp [decode, int4Oid, boolOid, int2Oid, h]

theorem decode_int8_of_len (bs : List Nat) (h : bs.length = 8) :
    decode int8Oid bs = .ok (.bigInt (decodeIntBE 8 bs)) := by
  simp [decode, int8Oid, boolOid, int2Oid, int4Oid, h]

theorem decode_float4_of_len (bs : List Nat) (h : bs.length = 4) :
    decode float4Oid bs = .ok (.float32 (bytesToNatBE bs)) := by
  simp [decode, float4Oid, boolOid, int2Oid, int4Oid, int8Oid, h]

theorem decode_float8_of_len (bs : List Nat) (h : bs.length = 8) :
    decode float8Oid bs = .ok (.float64 (bytesToNatBE bs)) := by
  simp [decode, float8Oid, boolOid, int2Oid, int4Oid, int8Oid, float4Oid, h]

theorem decode_text_eq (bs : List Nat) : decode textOid bs = .ok (.text bs) := by
  simp [decode, textOid, boolOid, int2Oid, int4Oid, int8Oid, float4Oid, float8Oid]

theorem decode_varchar_eq (bs : List Nat) : decode varcharOid bs = .ok (.varchar bs) := by
  simp [decode, varcharOid, boolOid, int2Oid, int4Oid, int8Oid, float4Oid, float8Oid, textOid]

theorem decode_uuid_of_len (bs : List Nat) (h : bs.length = 16) :
    decode uuidOid bs = .ok (.uuid bs) := by
  simp [decode, uuidOid, boolOid, int2Oid, int4Oid, int8Oid, float4Oid, float8Oid,
    textOid, varcharOid, h]

theorem decode_mac6_of_len (bs : List Nat) (h : bs.length = 6) :
    decode macaddr6Oid bs = .ok (.macAddr6 bs) := by
  simp [decode, macaddr6Oid, boolOid, int2Oid, int4Oid, int8Oid, float4Oid, float8Oid,
    textOid, varcharOid, uuidOid, h]

theorem decode_mac8_of_len (bs : List Nat) (h : bs.length = 8) :
    decode macaddr8Oid bs = .ok (.macAddr8 bs) := by
  simp [decode, macaddr8Oid, boolOid, int2Oid, int4Oid, int8Oid, float4Oid, float8Oid,
    textOid, varcharOid, uuidOid, macaddr6Oid, h]

theorem decode_json_eq (bs : List Nat) : decode jsonOid bs = .ok (.json bs) := by
  simp [decode, jsonOid, boolOid, int2Oid, int4Oid, int8Oid, float4Oid, float8Oid,
    textOid, varcharOid, uuidOid, macaddr6Oid, macaddr8Oid]

theorem decode_jsonb_cons (bs : List Nat) : decode jsonbOid (1 :: bs) = .ok (.jsonb bs) := by
  simp [decode, jsonbOid, boolOid, int2Oid, int4Oid, int8Oid, float4Oid, float8Oid,
    textOid, varcharOid, uuidOid, macaddr6Oid, macaddr8Oid, jsonOid]

theorem decode_custom_eq (oid : Nat) (bs : List Nat) (h : oid ∉ knownOids) :
    decode oid bs = .ok (.custom oid bs) := by
  simp only [knownOids, boolOid, int2Oid, int4Oid, int8Oid, float4Oid, float8Oid, textOid,
    varcharOid, uuidOid, macaddr6Oid, macaddr8Oid, jsonOid, jsonbOid,
    List.mem_cons, List.not_mem_nil, or_false, not_or] at h
  obtain ⟨h16, h21, h23, h20, h700, h701, h25, h1043, h2950, h829, h774, h114, h3802⟩ := h
  simp [decode, boolOid, int2Oid, int4Oid, int8Oid, float4Oid, float8Oid, textOid,
    varcharOid, uuidOid, macaddr6Oid, macaddr8Oid, jsonOid, jsonbOid,
    h16, h21, h23, h20, h700, h701, h25, h1043, h2950, h829, h774, h114, h3802]

/-- C1: for every supported (well-formed) Value variant, including UUID,
6- and 8-byte MAC addresses, JSON and JSONB, decoding the bytes produced by
encoding it under its own OID yields the value again; `encode` and `decode`
are pure Lean functions, hence side-effect-free. -/
theorem decode_encode_roundtrip (v : Value) (h : v.wf) :
    decode v.oid (encode v) = .ok v := by
  cases v with
  | boolV b => cases b <;> rfl
  | smallInt i =>
    obtain ⟨h1, h2⟩ := h
    have hrt : decodeIntBE 2 (encodeIntBE 2 i) = i := by
      apply decodeIntBE_encodeIntBE 2 (by norm_num) i
      · norm_num; exact h1
      · norm_num; exact h2
    show decode int2Oid (encodeIntBE 2 i) = .ok (.smallInt i)
    rw [decode_int2_of_len _ (encodeIntBE_length 2 i), hrt]
  | integer i =>
    obtain ⟨h1, h2⟩ := h
    have hrt : decodeIntBE 4 (encodeIntBE 4 i) = i := by
      apply decodeIntBE_encodeIntBE 4 (by norm_num) i
      · norm_num; exact h1
      · norm_num; exact h2
    show decode int4Oid (encodeIntBE 4 i) = .ok (.integer i)
    rw [decode_int4_of_len _ (encodeIntBE_length 4 i), hrt]
  | bigInt i =>
    obtain ⟨h1, h2⟩ := h
    have hrt : decodeIntBE 8 (encodeIntBE 8 i) = i := by
      apply decodeIntBE_encodeIntBE 8 (by norm_num) i
      · norm_num; exact h1
      · norm_num; exact h2
    show decode int8Oid (encodeIntBE 8 i) = .ok (.bigInt i)
    rw [decode_int8_of_len _ (encodeIntBE_length 8 i), hrt]
  | float32 bits =>
    have hlt : bits < 256 ^ 4 := by norm_num; exact h
    show decode float4Oid (natToBytesBE 4 bits) = .ok (.float32 bits)
    rw [decode_float4_of_len _ (natToBytesBE_length 4 bits),
      bytesToNatBE_natToBytesBE 4 bits hlt]
  | float64 bits =>
    have hlt : bits < 256 ^ 8 := by norm_num; exact h
    show decode float8Oid (natToBytesBE 8 bits) = .ok (.float64 bits)
    rw [decode_float8_of_len _ (natToBytesBE_length 8 bits),
      bytesToNatBE_natToBytesBE 8 bits hlt]
  | varchar bs => exact decode_varchar_eq bs
  | text bs => exact decode_text_eq bs
  | uuid bs => exact decode_uuid_of_len bs h.1
  | macAddr6 bs => exact decode_mac6_of_len bs h.1
  | macAddr8 bs => exact decode_mac8_of_len bs h.1
  | json bs => exact decode_json_eq bs
  | jsonb bs => exact decode_jsonb_cons bs
  | custom oid bs => exact decode_custom_eq oid bs h.1

/-- Witness for C1 at a concrete 6-byte MAC address value. -/
theorem decode_encode_roundtrip_witness :
    (Value.macAddr6 [0, 1, 2, 3, 4, 5]).wf ∧
      decode (Value.macAddr6 [0, 1, 2, 3, 4, 5]).oid
          (encode (Value.macAddr6 [0, 1, 2, 3, 4, 5])) =
        .ok (.macAddr6 [0, 1, 2, 3, 4, 5]) :=
  ⟨⟨rfl, by decide⟩, decode_encode_roundtrip _ ⟨rfl, by decide⟩⟩

/-- C3: decoding a buffer whose length differs from the fixed MAC-address
width (6 or 8 bytes) fails with the MAC-address-specific conversion error
naming both the observed and the expected lengths — never an ok result. -/
theorem decode_mac_wrong_length (bs : List Nat) :
    (bs.length ≠ 6 → decode macaddr6Oid bs = .error (.macAddr6Conversion bs.length 6)) ∧
      (bs.length ≠ 8 → decode macaddr8Oid bs = .error (.macAddr8Conversion bs.length 8)) := by
  constructor
  · intro h
    simp [decode, macaddr6Oid, boolOid, int2Oid, int4Oid, int8Oid, float4Oid, float8Oid,
      textOid, varcharOid, uuidOid, h]
  · intro h
    simp [decode, macaddr8Oid, boolOid, int2Oid, int4Oid, int8Oid, float4Oid, float8Oid,
      textOid, varcharOid, uuidOid, macaddr6Oid, h]

/-- Witness for C3: a claimed 6-byte MAC address decoded from a 5-byte
buffer fails naming observed length 5 and expected length 6. -/
theorem decode_mac_wrong_length_witness :
    decode macaddr6Oid [0, 0, 0, 0, 0] = .error (.macAddr6Conversion 5 6) :=
  (decode_mac_wrong_length [0, 0, 0, 0, 0]).1 (by decide)

/-- C9: every exception class named by the external-interface contract
(the five subsystem bases and the specific subtypes enumerated in section 4)
appears in `psqlpy.exceptions.__all__`, and every typed value marker named
in section 6 appears in `psqlpy.extra_types.__all__`. -/
theorem contract_names_exported :
    (∀ n ∈ contractExceptionNames, n ∈ exceptionsAll) ∧
      (∀ n ∈ contractMarkerNames, n ∈ extraTypesAll) := by
  decide

/-- C10: in each shim module, `__all__` is exactly the set of names imported
from the corresponding `_internal` module, with no duplicates: 22 names for
`psqlpy.exceptions` and 12 for `psqlpy.extra_types`, so a star-import
exposes exactly the re-exported names. -/
theorem all_lists_match_imports :
    exceptionsAll.Perm exceptionsImports ∧ exceptionsAll.Nodup ∧
      exceptionsAll.length = 22 ∧
      extraTypesAll.Perm extraTypesImports ∧ extraTypesAll.Nodup ∧
      extraTypesAll.length = 12 := by
  decide

/-! ## Connection state machine

Modelled from the spec: the Connection lives in the external `_internal`
engine; the model follows sections 3 and 4.2 (states Idle, InTransaction,
Broken; `begin()` issues BEGIN, entering InTransaction is only legal from
Idle, and a failed begin leaves the Connection state unchanged). -/

/-- The Connection states of section 3. -/
inductive ConnSt where
  | idle
  | inTransaction
  | broken
deriving DecidableEq, Repr

/-- The driver error kinds relevant to the transaction protocol layer
(section 4.3 and the exception taxonomy of section 6). -/
inductive TxnError where
  | transactionBegin
  | transactionCommit (failingScope : Option String)
  | transactionRollback
  | transactionSavepoint
deriving DecidableEq, Repr

/-- Modelled from the spec: `begin()` on a Connection. `backendOk` tells
whether the backend accepts the BEGIN. Returns the error surfaced (if any)
together with the Connection state after the attempt (section 4.2). -/
def connBegin (st : ConnSt) (backendOk : Bool) : Option TxnError × ConnSt :=
  match st, backendOk with
  | .idle, true => (none, .inTransaction)
  | .idle, false => (some .transactionBegin, .idle)
  | .inTransaction, _ => (some .transactionBegin, .inTransaction)
  | .broken, _ => (some .transactionBegin, .broken)

/-- C4: whenever `begin()` fails — whatever the cause, including the
backend refusing the BEGIN from Idle — the surfaced error is
`TransactionBeginError` and the Connection state after the attempt equals
the state before it; `begin()` from a state other than Idle always fails
(so it never silently nests), and reaching InTransaction is only possible
from Idle. -/
theorem connBegin_failure_spec (st : ConnSt) (backendOk : Bool) :
    ((connBegin st backendOk).1.isSome →
        (connBegin st backendOk).1 = some .transactionBegin ∧
          (connBegin st backendOk).2 = st) ∧
      (st ≠ .idle → (connBegin st backendOk).1 = some .transactionBegin) ∧
      ((connBegin st backendOk).2 = .inTransaction ∧ st ≠ .inTransaction →
        st = .idle ∧ (connBegin st backendOk).1 = none) := by
  cases st <;> cases backendOk <;> simp [connBegin]

/-- Witness for C4: a backend-refused `begin()` from Idle surfaces the
begin error and leaves the Connection Idle, and `begin()` on a Connection
already InTransaction also fails with the begin error. -/
theorem connBegin_failure_spec_witness :
    ((connBegin .idle false).1 = some .transactionBegin ∧
        (connBegin .idle false).2 = .idle) ∧
      (connBegin .inTransaction true).1 = some .transactionBegin :=
  ⟨(connBegin_failure_spec .idle false).1 (by decide),
    (connBegin_failure_spec .inTransaction true).2.1 (by decide)⟩

/-! ## Transaction state machine

Modelled from the spec: the Transaction lives in the external `_internal`
engine; the model follows sections 3 and 4.3 (states Active, Committed,
RolledBack, Failed; a stack of active savepoint names with the innermost
scope at the head; `commit()` auto-releases pending scopes innermost-first
before issuing the outer COMMIT, and reports `TransactionCommitError`
naming the failing scope if a release fails). -/

/-- The Transaction states of section 3. -/
inductive TxnSt where
  | active
  | committed
  | rolledBack
  | failed
deriving DecidableEq, Repr

/-- A Transaction: its state and the stack of active savepoint names,
innermost scope first (section 3). -/
structure Txn where
  state : TxnSt
  savepoints : List String
deriving DecidableEq, Repr

/-- The wire commands a commit issues, in order. -/
inductive TxnCmd where
  | releaseSavepointCmd (scope : String)
  | commitCmd
deriving DecidableEq, Repr

/-- Walk the savepoint stack innermost-first, attempting to release each
scope; returns the scopes for which a RELEASE was issued (in issue order)
and the first failing scope, if any. `relOk` tells whether the backend
accepts releasing a given scope. -/
def releaseScopes : List String → (String → Bool) → List String × Option String
  | [], _ => ([], none)
  | n :: rest, relOk =>
    if relOk n then
      let r := releaseScopes rest relOk
      (n :: r.1, r.2)
    else ([n], some n)

/-- Modelled from the spec: `commit()` on a Transaction (section 4.3).
Releases pending savepoint scopes innermost-first, then issues COMMIT;
returns the Transaction after the attempt, the commands issued, and the
error surfaced (if any). -/
def commitTxn (t : Txn) (relOk : String → Bool) (commitOk : Bool) :
    Txn × List TxnCmd × Option TxnError :=
  match t.state with
  | .active =>
    match releaseScopes t.savepoints relOk with
    | (issued, some bad) =>
      ({ state := .failed, savepoints := t.savepoints },
        issued.map .releaseSavepointCmd, some (.transactionCommit (some bad)))
    | (issued, none) =>
      if commitOk then
        ({ state := .committed, savepoints := [] },
          issued.map .releaseSavepointCmd ++ [.commitCmd], none)
      else
        ({ state := .failed, savepoints := [] },
          issued.map .releaseSavepointCmd ++ [.commitCmd],
          some (.transactionCommit none))
  | _ => (t, [], some (.transactionCommit none))

theorem releaseScopes_all_ok (l : List String) (relOk : String → Bool)
    (h : ∀ n ∈ l, relOk n = true) : releaseScopes l relOk = (l, none) := by
  induction l with
  | nil => rfl
  | cons n rest ih =>
    have hn : relOk n = true := h n (by simp)
    have hrest : ∀ m ∈ rest, relOk m = true := fun m hm => h m (by simp [hm])
    simp [releaseScopes, hn, ih hrest]

/-- C5: committing an Active Transaction with pending nested savepoint
scopes first releases all of them in innermost-first order (the stack
order, head = innermost) and only then issues the outer COMMIT; if a
release fails, commit fails with `TransactionCommitError` naming the
failing scope and no COMMIT is issued; and a successful commit leaves the
savepoint stack empty with the Transaction Committed. -/
theorem commitTxn_savepoint_spec (t : Txn) (relOk : String → Bool) (commitOk : Bool)
    (hact : t.state = .active) :
    ((∀ n ∈ t.savepoints, relOk n = true) →
        (commitTxn t relOk commitOk).2.1 =
          t.savepoints.map TxnCmd.releaseSavepointCmd ++ [TxnCmd.commitCmd]) ∧
      (∀ bad, (releaseScopes t.savepoints relOk).2 = some bad →
        (commitTxn t relOk commitOk).2.2 = some (.transactionCommit (some bad)) ∧
          TxnCmd.commitCmd ∉ (commitTxn t relOk commitOk).2.1) ∧
      ((commitTxn t relOk commitOk).2.2 = none →
        (commitTxn t relOk commitOk).1.savepoints = [] ∧
          (commitTxn t relOk commitOk).1.state = .committed) := by
  refine ⟨?_, ?_, ?_⟩
  · intro hall
    have hrel : releaseScopes t.savepoints relOk = (t.savepoints, none) :=
      releaseScopes_all_ok _ _ hall
    cases commitOk <;> simp [commitTxn, hact, hrel]
  · intro bad hbad
    rcases hrel : releaseScopes t.savepoints relOk with ⟨issued, f⟩
    rw [hrel] at hbad
    simp only at hbad
    subst hbad
    exact ⟨by simp [commitTxn, hact, hrel], by simp [commitTxn, hact, hrel]⟩
  · intro hnone
    rcases hrel : releaseScopes t.savepoints relOk with ⟨issued, f⟩
    cases f with
    | some bad => simp [commitTxn, hact, hrel] at hnone
    | none =>
      cases commitOk with
      | false => simp [commitTxn, hact, hrel] at hnone
      | true => simp [commitTxn, hact, hrel]

/-- Witness for C5: committing with two pending scopes releases them
innermost-first and only then issues COMMIT. -/
theorem commitTxn_savepoint_spec_witness :
    (Txn.mk .active ["sp2", "sp1"]).state = .active ∧
      (commitTxn ⟨.active, ["sp2", "sp1"]⟩ (fun _ => true) true).2.1 =
        [.releaseSavepointCmd "sp2", .releaseSavepointCmd "sp1", .commitCmd] :=
  ⟨rfl, by
    have h := (commitTxn_savepoint_spec ⟨.active, ["sp2", "sp1"]⟩ (fun _ => true) true rfl).1
      (by intro n hn; rfl)
    simpa using h⟩

/-! ## Cursor state machine

Modelled from the spec: the Cursor lives in the external `_internal`
engine; the model follows sections 3 and 4.4 (states Open, Exhausted,
Closed; fetching from an Exhausted cursor is an error-free empty result
until the cursor is closed; fetching or closing a Closed cursor fails with
the dedicated lifecycle error, never a silent no-op). -/

/-- The Cursor states of section 3. -/
inductive CursorSt where
  | opened
  | exhausted
  | closed
deriving DecidableEq, Repr

/-- The cursor error kinds of section 4.4. -/
inductive CursorError where
  | cursorStart
  | cursorClose
  | cursorFetch
deriving DecidableEq, Repr

/-- A Cursor: its state and the rows still pending in its server-side
portal (rows are opaque and modelled as naturals). -/
structure Cursor where
  state : CursorSt
  pending : List Nat
deriving DecidableEq, Repr

/-- Modelled from the spec: `fetch(n)` requests up to `n` rows; it returns
fewer than `n` rows and transitions to Exhausted exactly when the portal
runs out; an Exhausted cursor keeps answering with an empty result and no
error; a Closed cursor fails with `CursorFetchError` (section 4.4). -/
def cursorFetch (c : Cursor) (n : Nat) : Cursor × Except CursorError (List Nat) :=
  match c.state with
  | .closed => (c, .error .cursorFetch)
  | .exhausted => (c, .ok [])
  | .opened =>
    let rows := c.pending.take n
    if rows.length < n then ({ state := .exhausted, pending := [] }, .ok rows)
    else ({ c with pending := c.pending.drop n }, .ok rows)

/-- Modelled from the spec: `close()` issues CLOSE portal and transitions
to Closed; closing an already-Closed cursor fails with `CursorCloseError`
(section 4.4). -/
def cursorClose (c : Cursor) : Cursor × Option CursorError :=
  match c.state with
  | .closed => (c, some .cursorClose)
  | _ => ({ state := .closed, pending := [] }, none)

/-- C6: `fetch(n)` on an Exhausted cursor returns an empty result without
error and leaves the cursor unchanged (hence still Exhausted, so repeated
fetches keep returning empty) until it is explicitly closed; `fetch` on a
Closed cursor fails with `CursorFetchError` and `close` on a Closed cursor
fails with `CursorCloseError` — neither is a silent no-op. -/
theorem cursor_boundary_spec (c : Cursor) (n : Nat) :
    (c.state = .exhausted → cursorFetch c n = (c, .ok [])) ∧
      (c.state = .closed → (cursorFetch c n).2 = .error .cursorFetch) ∧
      (c.state = .closed → (cursorClose c).2 = some .cursorClose) := by
  obtain ⟨st, p⟩ := c
  cases st <;> simp [cursorFetch, cursorClose]

/-- Witness for C6 at concrete Exhausted and Closed cursors. -/
theorem cursor_boundary_spec_witness :
    cursorFetch ⟨.exhausted, []⟩ 5 = (⟨.exhausted, []⟩, .ok []) ∧
      (cursorFetch ⟨.closed, []⟩ 5).2 = .error .cursorFetch ∧
      (cursorClose ⟨.closed, []⟩).2 = some .cursorClose :=
  ⟨(cursor_boundary_spec ⟨.exhausted, []⟩ 5).1 rfl,
    (cursor_boundary_spec ⟨.closed, []⟩ 5).2.1 rfl,
    (cursor_boundary_spec ⟨.closed, []⟩ 5).2.2 rfl⟩

/-! ## Connection pool

Modelled from the spec: the Pool lives in the external `_internal` engine;
the model follows sections 3, 4.5 and 5 (a bounded collection of
Connections, each in exactly one of the states idle, leased,
being-established, being-destroyed; LIFO reuse of idle Connections; a
Broken Connection is discarded at checkin and replaced up to `min_size`,
never returned to service). Connections are identified by naturals; each of
the four state classes is a list of identifiers, and `broken` records every
identifier ever observed Broken at checkin. Concurrency is modelled as an
arbitrary interleaving of the pool operations (section 5: the idle set and
wait queue are protected by a single mutual-exclusion discipline, so an
execution is a sequence of atomic operations). -/

/-- The Pool state of section 3: configuration bounds, a fresh-identifier
counter, the identifiers currently idle (head = most recently returned,
for LIFO reuse), leased, being-established and being-destroyed, the
identifiers ever observed Broken, and the number of queued waiters. -/
structure PoolState where
  maxSize : Nat
  minSize : Nat
  nextId : Nat
  idle : List Nat
  leased : List Nat
  establishing : List Nat
  destroying : List Nat
  broken : List Nat
  waiters : Nat
deriving DecidableEq, Repr

/-- Modelled from the spec: `acquire` (section 4.5) — hand out an idle
Connection if one exists (LIFO), else establish a new one when
`idle + leased < max_size`, else queue the caller. Returns the new state
and the identifier handed out, if any. -/
def acquire (s : PoolState) : PoolState × Option Nat :=
  match s.idle with
  | id :: rest => ({ s with idle := rest, leased := id :: s.leased }, some id)
  | [] =>
    if s.idle.length + s.leased.length < s.maxSize then
      ({ s with leased := s.nextId :: s.leased, nextId := s.nextId + 1 }, some s.nextId)
    else
      ({ s with waiters := s.waiters + 1 }, none)

/-- Modelled from the spec: `release` (sections 4.2 and 4.5) — a healthy
Connection returns to idle (or is handed straight to the longest-waiting
queued acquirer); a Broken Connection is discarded (moved to
being-destroyed, recorded in `broken`) and, when capacity drops below
`min_size`, a background replacement is scheduled. -/
def release (s : PoolState) (id : Nat) (isBroken : Bool) : PoolState :=
  if id ∈ s.leased then
    if isBroken then
      let s1 : PoolState :=
        { s with leased := s.leased.erase id, destroying := id :: s.destroying,
                 broken := id :: s.broken }
      if s1.idle.length + s1.leased.length < s1.minSize then
        { s1 with establishing := s1.nextId :: s1.establishing, nextId := s1.nextId + 1 }
      else s1
    else if 0 < s.waiters then
      { s with waiters := s.waiters - 1 }
    else
      { s with leased := s.leased.erase id, idle := id :: s.idle }
  else s

/-- Modelled from the spec: completion of a background establishment — the
new Connection joins the idle set if capacity allows, else it is discarded. -/
def finishEstablish (s : PoolState) : PoolState :=
  match s.establishing with
  | [] => s
  | id :: rest =>
    if s.idle.length + s.leased.length < s.maxSize then
      { s with establishing := rest, idle := id :: s.idle }
    else
      { s with establishing := rest, destroying := id :: s.destroying }

/-- Modelled from the spec: completion of a Connection destruction. -/
def finishDestroy (s : PoolState) : PoolState :=
  match s.destroying with
  | [] => s
  | _ :: rest => { s with destroying := rest }

/-- The atomic pool operations whose interleavings model concurrent load. -/
inductive PoolOp where
  | acquireOp
  | releaseOp (id : Nat) (isBroken : Bool)
  | finishEstablishOp
  | finishDestroyOp
deriving DecidableEq, Repr

/-- One atomic pool operation. -/
def step (s : PoolState) (op : PoolOp) : PoolState :=
  match op with
  | .acquireOp => (acquire s).1
  | .releaseOp id b => release s id b
  | .finishEstablishOp => finishEstablish s
  | .finishDestroyOp => finishDestroy s

/-- An execution: a sequence of atomic pool operations from a state. -/
def runPool (s : PoolState) (ops : List PoolOp) : PoolState :=
  ops.foldl step s

/-- All Connection identifiers currently owned by the Pool, listed by state
class; one occurrence per state a Connection is in. -/
def PoolState.allIds (s : PoolState) : List Nat :=
  s.idle ++ s.leased ++ s.establishing ++ s.destroying

/-- The Pool invariant (section 3, strengthened to be inductive):
no identifier occurs in two state classes (each Connection is in exactly
one of idle, leased, being-established, being-destroyed), all identifiers
are below the fresh counter, `idle + leased <= max_size`,
`min_size <= max_size`, and an identifier ever observed Broken is never
idle, leased or being-established. -/
def PoolInv (s : PoolState) : Prop :=
  s.allIds.Nodup ∧
    (∀ id ∈ s.allIds, id < s.nextId) ∧
    (∀ id ∈ s.broken, id < s.nextId) ∧
    s.idle.length + s.leased.length ≤ s.maxSize ∧
    s.minSize ≤ s.maxSize ∧
    (∀ id ∈ s.broken, id ∉ s.idle ∧ id ∉ s.leased ∧ id ∉ s.establishing)

/-! ## Pool configuration and build -/

/-- Modelled from the spec: the pool configuration surface (sections 4.5
and 6) — size bounds, timeouts and the backend connect target. -/
structure PoolConfig where
  minSize : Nat
  maxSize : Nat
  connectTimeoutMs : Nat
  acquireTimeoutMs : Nat
  host : String
  port : Nat
  database : String
deriving DecidableEq, Repr

/-- The pool error kinds of sections 4.5 and 6. -/
inductive PoolError where
  | connectionPoolConfiguration (reason : String)
  | dbPoolConfiguration (reason : String)
  | connectionPoolBuild (reason : String)
  | connectionPoolExecuteTimeout
  | poolClosed
deriving DecidableEq, Repr

/-- Whether an error is one of the two configuration error classes. -/
def PoolError.isConfigError : PoolError → Bool
  | .connectionPoolConfiguration _ => true
  | .dbPoolConfiguration _ => true
  | _ => false

/-- A valid pool configuration (section 4.5): `1 <= min_size <= max_size`,
positive timeouts, well-formed connect target. -/
def validConfig (cfg : PoolConfig) : Prop :=
  1 ≤ cfg.minSize ∧ cfg.minSize ≤ cfg.maxSize ∧ 0 < cfg.connectTimeoutMs ∧
    0 < cfg.acquireTimeoutMs ∧ cfg.host ≠ "" ∧ 0 < cfg.port ∧ cfg.port < 65536

instance : DecidablePred validConfig := by
  intro cfg
  unfold validConfig
  infer_instance

/-- Modelled from the spec: `build(config) -> Pool` (section 4.5) —
validates the configuration synchronously and, when it is valid, warms the
pool up to `min_size` idle Connections. -/
def build (cfg : PoolConfig) : Except PoolError PoolState :=
  if cfg.minSize < 1 then
    .error (.connectionPoolConfiguration "min_size must be at least 1")
  else if cfg.maxSize < cfg.minSize then
    .error (.connectionPoolConfiguration "min_size must not exceed max_size")
  else if cfg.connectTimeoutMs = 0 then
    .error (.dbPoolConfiguration "connect timeout must be positive")
  else if cfg.acquireTimeoutMs = 0 then
    .error (.dbPoolConfiguration "acquire timeout must be positive")
  else if cfg.host = "" then
    .error (.dbPoolConfiguration "connect target host must be nonempty")
  else if cfg.port = 0 ∨ 65536 ≤ cfg.port then
    .error (.dbPoolConfiguration "connect target port out of range")
  else
    .ok { maxSize := cfg.maxSize, minSize := cfg.minSize, nextId := cfg.minSize,
          idle := List.range cfg.minSize, leased := [], establishing := [],
          destroying := [], broken := [], waiters := 0 }

/-- C7: `build` validates the configuration bounds; every invalid
configuration fails at build time with one of the two configuration error
classes, and a successfully built pool always came from a valid
configuration — so a configuration error can never first surface at use
time. -/
theorem build_validates (cfg : PoolConfig) :
    (¬ validConfig cfg → ∃ e, build cfg = .error e ∧ e.isConfigError = true) ∧
      (∀ p, build cfg = .ok p → validConfig cfg) := by
  unfold build validConfig
  split_ifs with h1 h2 h3 h4 h5 h6
  case _ => exact ⟨fun _ => ⟨_, rfl, rfl⟩, fun p hp => by cases hp⟩
  case _ => exact ⟨fun _ => ⟨_, rfl, rfl⟩, fun p hp => by cases hp⟩
  case _ => exact ⟨fun _ => ⟨_, rfl, rfl⟩, fun p hp => by cases hp⟩
  case _ => exact ⟨fun _ => ⟨_, rfl, rfl⟩, fun p hp => by cases hp⟩
  case _ => exact ⟨fun _ => ⟨_, rfl, rfl⟩, fun p hp => by cases hp⟩
  case _ => exact ⟨fun _ => ⟨_, rfl, rfl⟩, fun p hp => by cases hp⟩
  case _ =>
    push_neg at h6
    refine ⟨fun hnv => absurd ?_ hnv, fun p _ => ?_⟩ <;>
      exact ⟨by omega, by omega, by omega, by omega, h5, by omega, by omega⟩

/-- Witness for C7: a configuration with `min_size = 0` fails at build
time with a configuration error. -/
theorem build_validates_witness :
    ∃ e, build ⟨0, 5, 1000, 1000, "localhost", 5432, "db"⟩ = .error e ∧
      e.isConfigError = true :=
  (build_validates ⟨0, 5, 1000, 1000, "localhost", 5432, "db"⟩).1 (by decide)

theorem poolInv_acquire (s : PoolState) (h : PoolInv s) : PoolInv (acquire s).1 := by
  obtain ⟨mx, mn, nid, idl, lsd, est, dst, brk, wtr⟩ := s
  obtain ⟨hnd, hlt, hblt, hcnt, hmm, hbr⟩ := h
  replace hnd : (idl ++ lsd ++ est ++ dst).Nodup := hnd
  replace hlt : ∀ x ∈ idl ++ lsd ++ est ++ dst, x < nid := hlt
  replace hblt : ∀ x ∈ brk, x < nid := hblt
  replace hcnt : idl.length + lsd.length ≤ mx := hcnt
  replace hmm : mn ≤ mx := hmm
  replace hbr : ∀ x ∈ brk, x ∉ idl ∧ x ∉ lsd ∧ x ∉ est := hbr
  cases idl with
  | cons cid rest =>
    show PoolInv ⟨mx, mn, nid, rest, cid :: lsd, est, dst, brk, wtr⟩
    have hperm : ((rest ++ cid :: lsd) ++ est ++ dst).Perm
        (((cid :: rest) ++ lsd) ++ est ++ dst) :=
      (List.perm_middle.append_right _).append_right _
    refine ⟨?_, ?_, ?_, ?_, hmm, ?_⟩
    · exact hperm.nodup_iff.mpr hnd
    · intro x hx
      exact hlt x (hperm.mem_iff.mp hx)
    · exact hblt
    · show rest.length + (cid :: lsd).length ≤ mx
      simp only [List.length_cons] at hcnt ⊢
      omega
    · intro x hx
      obtain ⟨hx1, hx2, hx3⟩ := hbr x hx
      simp only [List.mem_cons, not_or] at hx1 ⊢
      exact ⟨hx1.2, ⟨hx1.1, hx2⟩, hx3⟩
  | nil =>
    simp only [acquire]
    split_ifs with hfull
    · show PoolInv ⟨mx, mn, nid + 1, [], nid :: lsd, est, dst, brk, wtr⟩
      replace hfull : lsd.length < mx := by simpa using hfull
      have hnotmem : nid ∉ (lsd ++ est ++ dst : List Nat) := fun hmem =>
        absurd (hlt nid hmem) (by omega)
      refine ⟨?_, ?_, ?_, ?_, hmm, ?_⟩
      · show (nid :: (lsd ++ est ++ dst)).Nodup
        exact List.nodup_cons.mpr ⟨hnotmem, hnd⟩
      · show ∀ x ∈ ([] ++ (nid :: lsd) ++ est ++ dst : List Nat), x < nid + 1
        intro x hx
        simp only [List.nil_append, List.mem_append, List.mem_cons] at hx
        rcases hx with ((hx | hx) | hx) | hx
        · omega
        · exact Nat.lt_succ_of_lt (hlt x (by simp [hx]))
        · exact Nat.lt_succ_of_lt (hlt x (by simp [hx]))
        · exact Nat.lt_succ_of_lt (hlt x (by simp [hx]))
      · exact fun x hx => Nat.lt_succ_of_lt (hblt x hx)
      · show ([] : List Nat).length + (nid :: lsd).length ≤ mx
        simp only [List.length_nil, List.length_cons]
        omega
      · intro x hx
        obtain ⟨hx1, hx2, hx3⟩ := hbr x hx
        have hxlt := hblt x hx
        refine ⟨hx1, ?_, hx3⟩
        simp only [List.mem_cons, not_or]
        exact ⟨by omega, hx2⟩
    · show PoolInv ⟨mx, mn, nid, [], lsd, est, dst, brk, wtr + 1⟩
      exact ⟨hnd, hlt, hblt, hcnt, hmm, hbr⟩

theorem poolInv_release (s : PoolState) (id : Nat) (b : Bool) (h : PoolInv s) :
    PoolInv (release s id b) := by
  obtain ⟨mx, mn, nid, idl, lsd, est, dst, brk, wtr⟩ := s
  obtain ⟨hnd, hlt, hblt, hcnt, hmm, hbr⟩ := h
  replace hnd : (idl ++ lsd ++ est ++ dst).Nodup := hnd
  replace hlt : ∀ x ∈ idl ++ lsd ++ est ++ dst, x < nid := hlt
  replace hblt : ∀ x ∈ brk, x < nid := hblt
  replace hcnt : idl.length + lsd.length ≤ mx := hcnt
  replace hmm : mn ≤ mx := hmm
  replace hbr : ∀ x ∈ brk, x ∉ idl ∧ x ∉ lsd ∧ x ∉ est := hbr
  simp only [release]
  split_ifs with hmem hbrk hrep hw
  rotate_left 2
  · -- healthy, handed to a waiter: only the waiter count changes
    exact ⟨hnd, hlt, hblt, hcnt, hmm, hbr⟩
  rotate_left 1
  · -- id not leased: no-op
    exact ⟨hnd, hlt, hblt, hcnt, hmm, hbr⟩
  -- remaining goals: broken+replenish, broken, healthy-to-idle;
  -- shared facts about the leased identifier
  all_goals (
    replace hmem : id ∈ lsd := hmem
    have hidlt : id < nid := hlt id (by simp [hmem])
    have hlsd_nd : lsd.Nodup := (hnd.of_append_left.of_append_left).of_append_right
    have hdisj_il : idl.Disjoint lsd :=
      (List.nodup_append.mp hnd.of_append_left.of_append_left).2.2
    have hdisj_ile : (idl ++ lsd).Disjoint est :=
      (List.nodup_append.mp hnd.of_append_left).2.2
    have hid_nidl : id ∉ idl := fun hin => hdisj_il hin hmem
    have hid_nest : id ∉ est := hdisj_ile (by simp [hmem])
    have hid_nerase : id ∉ lsd.erase id := fun hin =>
      absurd rfl (hlsd_nd.mem_erase_iff.mp hin).1
    have hlen_erase : (lsd.erase id).length = lsd.length - 1 :=
      List.length_erase_of_mem hmem
    have hpos : 0 < lsd.length := List.length_pos_of_mem hmem
    have hposc : 0 < lsd.count id := List.count_pos_iff.mpr hmem)
  · -- broken, with background replenishment scheduled
    show PoolInv ⟨mx, mn, nid + 1, idl, lsd.erase id, nid :: est, id :: dst,
        id :: brk, wtr⟩
    have hperm : (idl ++ lsd.erase id ++ (nid :: est) ++ (id :: dst)).Perm
        (nid :: (idl ++ lsd ++ est ++ dst)) := by
      apply List.perm_iff_count.mpr
      intro a
      by_cases h1 : a = id
      · subst h1
        simp only [List.count_append, List.count_cons, beq_iff_eq]
        rw [List.count_erase_self]
        split_ifs <;> omega
      · simp only [List.count_append, List.count_cons, beq_iff_eq]
        rw [List.count_erase_of_ne h1]
        split_ifs <;> omega
    have hnid_nmem : nid ∉ idl ++ lsd ++ est ++ dst := fun hin =>
      absurd (hlt nid hin) (by omega)
    refine ⟨?_, ?_, ?_, ?_, hmm, ?_⟩
    · exact hperm.nodup_iff.mpr (List.nodup_cons.mpr ⟨hnid_nmem, hnd⟩)
    · intro x hx
      show x < nid + 1
      rcases List.mem_cons.mp (hperm.mem_iff.mp hx) with hx | hx
      · omega
      · exact Nat.lt_succ_of_lt (hlt x hx)
    · intro x hx
      show x < nid + 1
      rcases List.mem_cons.mp hx with hx | hx
      · omega
      · exact Nat.lt_succ_of_lt (hblt x hx)
    · show idl.length + (lsd.erase id).length ≤ mx
      omega
    · intro x hx
      rcases List.mem_cons.mp hx with hx | hx
      · subst hx
        refine ⟨hid_nidl, hid_nerase, ?_⟩
        simp only [List.mem_cons, not_or]
        exact ⟨by omega, hid_nest⟩
      · obtain ⟨hx1, hx2, hx3⟩ := hbr x hx
        have hxlt := hblt x hx
        refine ⟨hx1, fun hin => hx2 (List.mem_of_mem_erase hin), ?_⟩
        simp only [List.mem_cons, not_or]
        exact ⟨by omega, hx3⟩
  · -- broken, no replenishment
    show PoolInv ⟨mx, mn, nid, idl, lsd.erase id, est, id :: dst, id :: brk, wtr⟩
    have hperm : (idl ++ lsd.erase id ++ est ++ (id :: dst)).Perm
        (idl ++ lsd ++ est ++ dst) := by
      apply List.perm_iff_count.mpr
      intro a
      by_cases h1 : a = id
      · subst h1
        simp only [List.count_append, List.count_cons, beq_iff_eq]
        rw [List.count_erase_self]
        split_ifs <;> omega
      · simp only [List.count_append, List.count_cons, beq_iff_eq]
        rw [List.count_erase_of_ne h1]
        split_ifs <;> omega
    refine ⟨?_, ?_, ?_, ?_, hmm, ?_⟩
    · exact hperm.nodup_iff.mpr hnd
    · intro x hx
      exact hlt x (hperm.mem_iff.mp hx)
    · intro x hx
      show x < nid
      rcases List.mem_cons.mp hx with hx | hx
      · omega
      · exact hblt x hx
    · show idl.length + (lsd.erase id).length ≤ mx
      omega
    · intro x hx
      rcases List.mem_cons.mp hx with hx | hx
      · subst hx
        exact ⟨hid_nidl, hid_nerase, hid_nest⟩
      · obtain ⟨hx1, hx2, hx3⟩ := hbr x hx
        exact ⟨hx1, fun hin => hx2 (List.mem_of_mem_erase hin), hx3⟩
  · -- healthy, returned to the idle set
    show PoolInv ⟨mx, mn, nid, id :: idl, lsd.erase id, est, dst, brk, wtr⟩
    have hperm : ((id :: idl) ++ lsd.erase id ++ est ++ dst).Perm
        (idl ++ lsd ++ est ++ dst) := by
      apply List.perm_iff_count.mpr
      intro a
      by_cases h1 : a = id
      · subst h1
        simp only [List.count_append, List.count_cons, beq_iff_eq]
        rw [List.count_erase_self]
        split_ifs <;> omega
      · simp only [List.count_append, List.count_cons, beq_iff_eq]
        rw [List.count_erase_of_ne h1]
        split_ifs <;> omega
    refine ⟨?_, ?_, ?_, ?_, hmm, ?_⟩
    · exact hperm.nodup_iff.mpr hnd
    · intro x hx
      exact hlt x (hperm.mem_iff.mp hx)
    · exact hblt
    · show (id :: idl).length + (lsd.erase id).length ≤ mx
      simp only [List.length_cons]
      omega
    · intro x hx
      obtain ⟨hx1, hx2, hx3⟩ := hbr x hx
      refine ⟨?_, fun hin => hx2 (List.mem_of_mem_erase hin), hx3⟩
      simp only [List.mem_cons, not_or]
      exact ⟨fun hxid => hx2 (hxid ▸ hmem), hx1⟩

theorem poolInv_finishEstablish (s : PoolState) (h : PoolInv s) :
    PoolInv (finishEstablish s) := by
  obtain ⟨mx, mn, nid, idl, lsd, est, dst, brk, wtr⟩ := s
  obtain ⟨hnd, hlt, hblt, hcnt, hmm, hbr⟩ := h
  replace hnd : (idl ++ lsd ++ est ++ dst).Nodup := hnd
  replace hlt : ∀ x ∈ idl ++ lsd ++ est ++ dst, x < nid := hlt
  replace hblt : ∀ x ∈ brk, x < nid := hblt
  replace hcnt : idl.length + lsd.length ≤ mx := hcnt
  replace hmm : mn ≤ mx := hmm
  replace hbr : ∀ x ∈ brk, x ∉ idl ∧ x ∉ lsd ∧ x ∉ est := hbr
  cases est with
  | nil => exact ⟨hnd, hlt, hblt, hcnt, hmm, hbr⟩
  | cons id rest =>
    simp only [finishEstablish]
    split_ifs with hroom
    · show PoolInv ⟨mx, mn, nid, id :: idl, lsd, rest, dst, brk, wtr⟩
      replace hroom : idl.length + lsd.length < mx := hroom
      have hperm : ((id :: idl) ++ lsd ++ rest ++ dst).Perm
          (idl ++ lsd ++ (id :: rest) ++ dst) := by
        apply List.perm_iff_count.mpr
        intro a
        simp only [List.count_append, List.count_cons, beq_iff_eq]
        split_ifs <;> omega
      refine ⟨?_, ?_, ?_, ?_, hmm, ?_⟩
      · exact hperm.nodup_iff.mpr hnd
      · intro x hx
        exact hlt x (hperm.mem_iff.mp hx)
      · exact hblt
      · show (id :: idl).length + lsd.length ≤ mx
        simp only [List.length_cons]
        omega
      · intro x hx
        obtain ⟨hx1, hx2, hx3⟩ := hbr x hx
        simp only [List.mem_cons, not_or] at hx3 ⊢
        exact ⟨⟨hx3.1, hx1⟩, hx2, hx3.2⟩
    · show PoolInv ⟨mx, mn, nid, idl, lsd, rest, id :: dst, brk, wtr⟩
      have hperm : (idl ++ lsd ++ rest ++ (id :: dst)).Perm
          (idl ++ lsd ++ (id :: rest) ++ dst) := by
        apply List.perm_iff_count.mpr
        intro a
        simp only [List.count_append, List.count_cons, beq_iff_eq]
        split_ifs <;> omega
      refine ⟨?_, ?_, ?_, ?_, hmm, ?_⟩
      · exact hperm.nodup_iff.mpr hnd
      · intro x hx
        exact hlt x (hperm.mem_iff.mp hx)
      · exact hblt
      · exact hcnt
      · intro x hx
        obtain ⟨hx1, hx2, hx3⟩ := hbr x hx
        simp only [List.mem_cons, not_or] at hx3
        exact ⟨hx1, hx2, hx3.2⟩

theorem poolInv_finishDestroy (s : PoolState) (h : PoolInv s) :
    PoolInv (finishDestroy s) := by
  obtain ⟨mx, mn, nid, idl, lsd, est, dst, brk, wtr⟩ := s
  obtain ⟨hnd, hlt, hblt, hcnt, hmm, hbr⟩ := h
  replace hnd : (idl ++ lsd ++ est ++ dst).Nodup := hnd
  replace hlt : ∀ x ∈ idl ++ lsd ++ est ++ dst, x < nid := hlt
  replace hblt : ∀ x ∈ brk, x < nid := hblt
  replace hcnt : idl.length + lsd.length ≤ mx := hcnt
  replace hmm : mn ≤ mx := hmm
  replace hbr : ∀ x ∈ brk, x ∉ idl ∧ x ∉ lsd ∧ x ∉ est := hbr
  cases dst with
  | nil => exact ⟨hnd, hlt, hblt, hcnt, hmm, hbr⟩
  | cons id rest =>
    show PoolInv ⟨mx, mn, nid, idl, lsd, est, rest, brk, wtr⟩
    have hsub : (idl ++ lsd ++ est ++ rest).Sublist
        (idl ++ lsd ++ est ++ (id :: rest)) :=
      (List.sublist_cons_self id rest).append_left _
    refine ⟨hsub.nodup hnd, ?_, hblt, hcnt, hmm, hbr⟩
    intro x hx
    exact hlt x (hsub.subset hx)

/-- Every atomic pool operation preserves the Pool invariant. -/
theorem poolInv_preserved (s : PoolState) (op : PoolOp) (h : PoolInv s) :
    PoolInv (step s op) := by
  cases op with
  | acquireOp => exact poolInv_acquire s h
  | releaseOp id b => exact poolInv_release s id b h
  | finishEstablishOp => exact poolInv_finishEstablish s h
  | finishDestroyOp => exact poolInv_finishDestroy s h

/-- The Pool invariant holds along any execution. -/
theorem poolInv_runPool (s : PoolState) (ops : List PoolOp) (h : PoolInv s) :
    PoolInv (runPool s ops) := by
  induction ops generalizing s with
  | nil => exact h
  | cons op rest ih => exact ih _ (poolInv_preserved s op h)

/-- C2: every pool operation (an arbitrary interleaving step of concurrent
acquire/release load) preserves the Pool invariant; in particular, after
the step the number of Connections in the idle or leased states still does
not exceed `max_size`, and no Connection identifier occurs in two of the
four state classes (each Connection is in exactly one of idle, leased,
being-established, being-destroyed). -/
theorem pool_invariant_spec (s : PoolState) (op : PoolOp) (h : PoolInv s) :
    PoolInv (step s op) ∧
      (step s op).idle.length + (step s op).leased.length ≤ (step s op).maxSize ∧
      (step s op).allIds.Nodup :=
  have h' := poolInv_preserved s op h
  ⟨h', h'.2.2.2.1, h'.1⟩

/-- Witness for C2: the invariant holds for an empty two-slot pool and is
preserved by a concrete acquire. -/
theorem pool_invariant_spec_witness :
    PoolInv ⟨2, 1, 0, [], [], [], [], [], 0⟩ ∧
      PoolInv (step ⟨2, 1, 0, [], [], [], [], [], 0⟩ .acquireOp) :=
  have h0 : PoolInv ⟨2, 1, 0, [], [], [], [], [], 0⟩ :=
    ⟨by decide, by decide, by decide, by decide, by decide, by decide⟩
  ⟨h0, (pool_invariant_spec ⟨2, 1, 0, [], [], [], [], [], 0⟩ .acquireOp h0).1⟩

/-- C8: in every execution from a state satisfying the Pool invariant, a
Connection ever observed Broken at checkin is never a member of the idle
set nor of the leased set afterwards, and `acquire` never hands out a
Broken Connection again (the Pool discards it and establishes fresh
replacements instead). -/
theorem broken_never_reused (s : PoolState) (ops : List PoolOp) (h : PoolInv s) :
    (∀ id ∈ (runPool s ops).broken,
        id ∉ (runPool s ops).idle ∧ id ∉ (runPool s ops).leased) ∧
      (∀ id, (acquire (runPool s ops)).2 = some id →
        id ∉ (runPool s ops).broken) := by
  have hinv : PoolInv (runPool s ops) := poolInv_runPool s ops h
  obtain ⟨hnd, hlt, hblt, hcnt, hmm, hbr⟩ := hinv
  constructor
  · intro id hid
    exact ⟨(hbr id hid).1, (hbr id hid).2.1⟩
  · intro id hid hmem
    rcases hidle : (runPool s ops).idle with _ | ⟨cid, rest⟩
    · simp only [acquire, hidle] at hid
      split_ifs at hid with hroom
      replace hid : some (runPool s ops).nextId = some id := hid
      have heq : (runPool s ops).nextId = id := Option.some.inj hid
      have := hblt id hmem
      omega
    · simp only [acquire, hidle] at hid
      replace hid : some cid = some id := hid
      obtain rfl : cid = id := Option.some.inj hid
      exact (hbr cid hmem).1 (by rw [hidle]; exact List.mem_cons_self cid rest)

/-- Witness for C8: after leasing, breaking and releasing connection 0, it
is recorded Broken, absent from idle and leased, and a fresh acquire hands
out a different identifier. -/
theorem broken_never_reused_witness :
    PoolInv ⟨2, 1, 0, [], [], [], [], [], 0⟩ ∧
      (∀ id ∈ (runPool ⟨2, 1, 0, [], [], [], [], [], 0⟩
          [.acquireOp, .releaseOp 0 true]).broken,
        id ∉ (runPool ⟨2, 1, 0, [], [], [], [], [], 0⟩
            [.acquireOp, .releaseOp 0 true]).idle ∧
          id ∉ (runPool ⟨2, 1, 0, [], [], [], [], [], 0⟩
              [.acquireOp, .releaseOp 0 true]).leased) :=
  have h0 : PoolInv ⟨2, 1, 0, [], [], [], [], [], 0⟩ :=
    ⟨by decide, by decide, by decide, by decide, by decide, by decide⟩
  ⟨h0, (broken_never_reused ⟨2, 1, 0, [], [], [], [], [], 0⟩
    [.acquireOp, .releaseOp 0 true] h0).1⟩

end Psqlpy
